import Mathlib

/-!
# Gotris — verification of the core model

Shallow embedding of the Gotris playfield/piece model.

Sources:
* `src/src/gotris/model/board.go` — the repository file contains several
  historical snapshots of the board logic separated by document markers.
  The most complete board snapshot under `src/` (the second document,
  referenced by the claims' line numbers 62–324) defines `NewBoard`,
  `checkCollisions`, `Board.Next`, `Board.Rotate` and `Board.moveX`.
* `src/src/gotris/model/board.go` lines 325–595 (third document) and
  `src/src/gotris/model/tile.go` — the tile logic (`Tile.MoveX`,
  `Tile.Rotate`, `Tile.GetBottomGap`, `buildTile`, the seven canonical
  shapes).

The final snapshot's `board.go` is not present under `src/`: the tile code
under `src/` uses the constants `blockBitSize`, `blockMask` and
`rShiftBlockBitDiff` that are declared in that missing file, and the view
code under `src/` calls `Board.Current`, `Board.GetLevel`,
`Board.RenderBoard` of the missing file.  Where a definition below depends
on that missing code, its doc comment starts with `Modelled from the spec:`
and follows the specification's words (10-wide board, 3-bit color cells,
collision-row normalization, cascading row clear, quadratic scoring).
Everything else is translated directly from the Go sources named above.
-/

namespace Gotris

/-- Modelled from the spec: board width of the final snapshot
(`BoardWidth` of the missing final `board.go`; the spec fixes the 10-wide
variant, and `Tile.Rotate` under `src/` scans `BoardWidth` columns of a
32-bit row = 2 pad bits + 10 cells of 3 bits). -/
def BoardWidth : Nat := 10

/-- Source `BoardHeight` from `board.go` (same in every snapshot). -/
def BoardHeight : Nat := 20

/-- Source `TileSize` from `tile.go`: max width/height/number of blocks in a tile. -/
def TileSize : Nat := 4

/-- Modelled from the spec: bit width of one color cell (constant
`blockBitSize` used by `tile.go` but declared in the missing final
`board.go`; the spec fixes 3-bit color cells). -/
def blockBitSize : Nat := 3

/-- Modelled from the spec: mask of a single (3-bit) cell (constant
`blockMask` used by `tile.go` but declared in the missing final
`board.go`). -/
def blockMask : Nat := 7

/-- Modelled from the spec: shift that brings `blockMask` onto the leftmost
cell of a 32-bit row, one pad bit from the top (constant
`rShiftBlockBitDiff` used by `tile.go` but declared in the missing final
`board.go`).  `blockMask <<< 28` covers bits 30..28, the leftmost cell. -/
def rShiftBlockBitDiff : Nat := 28

/-- Truncation to 32 bits (`uint32` arithmetic). -/
def u32 (x : Nat) : Nat := x % 2 ^ 32

/-- Source `XDirection` from `tile.go`. -/
inductive XDirection where
  | Left
  | Right
deriving DecidableEq

/-- Source `TileColor` from `tile.go`. -/
inductive TileColor where
  | Transparent
  | Blue
  | Cyan
  | Grey
  | Yellow
  | Green
  | Violet
  | Red
deriving DecidableEq

/-- The numeric value of a `TileColor` (its `uint8` enumeration value in
`tile.go`). -/
def TileColor.code : TileColor → Nat
  | .Transparent => 0
  | .Blue => 1
  | .Cyan => 2
  | .Grey => 3
  | .Yellow => 4
  | .Green => 5
  | .Violet => 6
  | .Red => 7

/-- Source `Tile` from `tile.go`: a 4-row shape (each row a `uint32`, modelled as
`Nat < 2^32`) and a color. -/
structure Tile where
  shape : List Nat
  color : TileColor
deriving DecidableEq

/-- Count of leading all-zero rows of a row list (helper for
`Tile.GetBottomGap`, which scans `tile.shape` from its last row upward). -/
def countLeadingZeroRows : List Nat → Nat
  | [] => 0
  | r :: rest => if r = 0 then countLeadingZeroRows rest + 1 else 0

/-- Source `Tile.GetBottomGap` from `tile.go`: the number of trailing all-zero rows
of the shape (the Go loop walks rows from the bottom and counts until the
first nonzero row). -/
def Tile.GetBottomGap (t : Tile) : Nat := countLeadingZeroRows t.shape.reverse

/-- Source `leftBoundMask` of `Tile.MoveX`: 1 leading pad bit + the leftmost cell. -/
def leftBoundMaskT : Nat := 0xF0000000

/-- Source `rightBoundMask` of `Tile.MoveX`: the rightmost cell + 1 trailing pad bit. -/
def rightBoundMaskT : Nat := 0x0000000F

/-- Source `Tile.MoveX` from `tile.go`: if any row of the shape already touches the
board edge in the direction of travel, the move is a silent no-op; otherwise
every row is shifted by one cell width (`blockBitSize` bits). -/
def Tile.MoveX (t : Tile) (dir : XDirection) : Tile :=
  if t.shape.any fun r =>
      (match dir with
        | .Left => Nat.land r leftBoundMaskT
        | .Right => Nat.land r rightBoundMaskT) ≠ 0 then
    t
  else
    { t with
      shape := t.shape.map fun r =>
        match dir with
        | .Left => u32 (r <<< blockBitSize)
        | .Right => r >>> blockBitSize }

/-- Bit mask of cell `col` of a row: `(blockMask <<< rShiftBlockBitDiff)`
shifted right by `blockBitSize` per column, exactly the scanning mask of
`Tile.Rotate` and `buildCollisionRow`. -/
def cellMask (col : Nat) : Nat :=
  (blockMask <<< rShiftBlockBitDiff) >>> (blockBitSize * col)

/-- The row-major list of occupied `(row, col)` cell positions of a shape,
as collected by the scanning loops of `Tile.Rotate` (`rowIdxs`/`colIdxs`). -/
def occupiedCells (shape : List Nat) : List (Nat × Nat) :=
  (List.range TileSize).flatMap fun row =>
    (List.range BoardWidth).filterMap fun col =>
      if Nat.land (shape.getD row 0) (cellMask col) ≠ 0 then some (row, col)
      else none

/-- The repeating color mask of `Tile.Rotate`: the tile's color replicated
into every cell position (bits `3*c+1 .. 3*c+3` for `c = 0..9`). -/
def colorMask (c : TileColor) : Nat :=
  (List.range 10).foldl
    (fun acc col => Nat.lor acc (c.code <<< (blockBitSize * col + 1))) 0

/-- OR a value into row `idx` of a row list (`transpose[idx] |= v`). -/
def orAt (rows : List Nat) (idx : Nat) (v : Nat) : List Nat :=
  rows.set idx (Nat.lor (rows.getD idx 0) v)

/-- Source `Tile.Rotate` from `tile.go` (the implemented version, third document of
`board.go`, lines 518–557): short-circuits on the square (Cyan) tile;
otherwise collects all occupied cell positions and their minimum column
`minCol`, and ORs, for each of the first `TileSize` collected positions
`(r, c)`, the color into position `(c - minCol, r + minCol)` of a fresh
shape.  (The Go code indexes `rowIdxs[i]` for `i < TileSize` and would panic
if fewer than 4 cells are occupied; every canonical tile and every tile
reachable from one has exactly 4 occupied cells, and we model the absent
entries by the harmless default `(0, 0)`.) -/
def Tile.Rotate (t : Tile) : Tile :=
  if t.color = .Cyan then t
  else
    let cells := occupiedCells t.shape
    let minCol := cells.foldl (fun m rc => min m rc.2) BoardWidth
    let cm := colorMask t.color
    let shape' := (List.range TileSize).foldl
      (fun sh i =>
        let rc := cells.getD i (0, 0)
        let transposeMask :=
          (blockMask <<< rShiftBlockBitDiff) >>>
            (blockBitSize * (rc.1 + minCol))
        orAt sh (rc.2 - minCol) (Nat.land transposeMask cm))
      (List.replicate TileSize 0)
    { t with shape := shape' }

/-- One converted row of `buildTile`: for each set bit of the old 8-bit row
(old column `col`, scanned from bit 7 down), OR in the color placed at
`(color <<< (rShiftBlockBitDiff - blockBitSize)) >>> (col * blockBitSize)`. -/
def buildRow (c : TileColor) (sr : Nat) : Nat :=
  (List.range 8).foldl
    (fun acc col =>
      if Nat.land sr (1 <<< (7 - col)) ≠ 0 then
        Nat.lor acc
          ((c.code <<< (rShiftBlockBitDiff - blockBitSize)) >>>
            (col * blockBitSize))
      else acc)
    0

/-- Source `buildTile` from `tile.go`: converts an old 8-bit `SimpleBlock` row list
into the 32-bit colored representation (rows that are zero stay zero). -/
def buildTile (shape : List Nat) (c : TileColor) : Tile :=
  { shape := shape.map fun sr => if sr ≠ 0 then buildRow c sr else 0
    color := c }

/-- The seven canonical tiles of `PickTile` (`tile.go`). -/
def tileLLeft : Tile := buildTile [0x00, 0x08, 0x08, 0x18] .Violet

def tileLRight : Tile := buildTile [0x00, 0x10, 0x10, 0x18] .Yellow

def tileSquare : Tile := buildTile [0x00, 0x18, 0x18, 0x00] .Cyan

def tilePipe : Tile := buildTile [0x08, 0x08, 0x08, 0x08] .Red

def tileTri : Tile := buildTile [0x00, 0x10, 0x38, 0x00] .Grey

def tileS : Tile := buildTile [0x00, 0x18, 0x30, 0x00] .Blue

def tileZ : Tile := buildTile [0x00, 0x30, 0x18, 0x00] .Green

/-- The shape table of `PickTile`. -/
def canonicalTiles : List Tile :=
  [tileLLeft, tileLRight, tileSquare, tilePipe, tileTri, tileS, tileZ]

/-! ## Board -/

/-- Modelled from the spec: the fully-set form of a row, every one of the
10 color cells all-ones and the two pad bits clear ("row `H` is always
fully set — every cell's bits are 1").  This is the phantom-row value of
the missing final `NewBoard` (the 8-wide snapshot under `src/` uses the
analogous all-cells value `255`) and the completeness mask of the row
clear scan. -/
def fullRowMask : Nat := 0x7FFFFFFE

/-- Modelled from the spec: the collision row of a grid row — "the grid row
with every cell that has any occupied bit normalized to a fully-set cell"
(§4.2); declared in the missing final `board.go`. -/
def buildCollisionRow (row : Nat) : Nat :=
  (List.range BoardWidth).foldl
    (fun acc col =>
      if Nat.land row (cellMask col) ≠ 0 then Nat.lor acc (cellMask col)
      else acc)
    0

/-- Modelled from the spec: a row is complete iff its collision-row form
equals the fully-set mask (§4 "a row is 'complete' if its collision-row
form equals the fully-set mask"). -/
def isCompleteRow (row : Nat) : Bool :=
  buildCollisionRow row == fullRowMask

/-- Source `Board` from `board.go`: persisted grid (`BoardHeight + 1` rows, the
last being the phantom row), score, optional active tile, optional next
tile, and the active tile's fall depth.  The grid rows are the 32-bit rows
of the final snapshot; the score is the spec's integer score. -/
structure Board where
  grid : List Nat
  score : Nat
  tile : Option Tile
  nextTile : Option Tile
  tileDepth : Nat
deriving DecidableEq

/-- Source `NewBoard` from `board.go`: empty visible rows, phantom row fully set,
score 0, no tiles, depth 0. -/
def NewBoard : Board :=
  { grid := List.replicate BoardHeight 0 ++ [fullRowMask]
    score := 0
    tile := none
    nextTile := none
    tileDepth := 0 }

/-- The gap-adjusted board index shared by `checkCollisions` and the merge
loop of `Board.Next`: subtract the tile's bottom gap from the depth "only
if we won't underflow index". -/
def adjDepth (t : Tile) (tileDepth : Nat) : Nat :=
  if tileDepth > t.GetBottomGap then tileDepth - t.GetBottomGap else tileDepth

/-- The collision loop of `checkCollisions`: starting at shape row `row`
(the tile's physical bottom) against grid row `d`, walk upward; report a
collision as soon as a collision row ANDed with the shape row is nonzero;
"break early to stay in bounds" at grid row 0 (after the check, the loop
stops when either index reaches 0, otherwise both indices decrement). -/
def collideLoop (grid : List Nat) (shape : List Nat) : Nat → Nat → Bool
  | 0, d =>
    decide (Nat.land (buildCollisionRow (grid.getD d 0)) (shape.getD 0 0) ≠ 0)
  | row + 1, d =>
    if Nat.land (buildCollisionRow (grid.getD d 0)) (shape.getD (row + 1) 0) ≠ 0
    then true
    else if d = 0 then false
    else collideLoop grid shape row (d - 1)

/-- Source `checkCollisions` from `board.go` (lines 131–154), with the
collision-row normalization of the spec's §4.2 applied to each grid row
(the 8-wide snapshot under `src/` ANDs the raw rows; the normalization
belongs to the missing final `board.go` and is modelled from the spec).
When every shape row is zero (`bottomGap = TileSize`) the Go loop's start
index is negative and the loop body never runs. -/
def checkCollisions (grid : List Nat) (t : Tile) (tileDepth : Nat) : Bool :=
  let bottomGap := t.GetBottomGap
  if bottomGap ≥ TileSize then false
  else collideLoop grid t.shape (TileSize - 1 - bottomGap) (adjDepth t tileDepth)

/-- The merge loop of `Board.Next` (lines 250–269): OR the shape rows into
the working grid from the tile's physical bottom upward, breaking at grid
row 0; identical index arithmetic to `collideLoop`. -/
def mergeLoop (shape : List Nat) : Nat → List Nat → Nat → List Nat
  | 0, g, d => g.set d (Nat.lor (g.getD d 0) (shape.getD 0 0))
  | row + 1, g, d =>
    let g' := g.set d (Nat.lor (g.getD d 0) (shape.getD (row + 1) 0))
    if d = 0 then g' else mergeLoop shape row g' (d - 1)

/-- The working grid of `Board.Next`: the persisted grid with the active
tile merged in at its (gap-adjusted) depth. -/
def mergeTile (grid : List Nat) (t : Tile) (tileDepth : Nat) : List Nat :=
  let bottomGap := t.GetBottomGap
  if bottomGap ≥ TileSize then grid
  else mergeLoop t.shape (TileSize - 1 - bottomGap) grid (adjDepth t tileDepth)

/-- Clearing one complete row `r` of the visible grid: rows above shift
down by one (`workingGrid[i] = workingGrid[i-1]` for `i = r..1`) and the
vacated top row becomes 0; equivalently, drop the row at index `r` and
prepend a zero row. -/
def clearRow (g : List Nat) (r : Nat) : List Nat :=
  0 :: g.eraseIdx r

/-- Modelled from the spec: the row-clear scan of the freeze step of the
missing final `board.go` (§4: "Scan grid rows bottom-to-top (excluding the
phantom row) ... For each complete row found: shift every row above it
down by one position, zero/reset the vacated top row, increment a per-tick
cleared-row counter, and re-examine the same row index ... before
continuing the scan").  `fuel` bounds the iteration count; the scan always
terminates because each step either clears a complete row or moves up, and
`clearScan` supplies enough fuel for any 20-row grid. -/
def clearLoop : Nat → List Nat → Nat → List Nat × Nat
  | 0, g, _ => (g, 0)
  | fuel + 1, g, row =>
    if isCompleteRow (g.getD row 0) then
      let res := clearLoop fuel (clearRow g row) row
      (res.1, res.2 + 1)
    else if row = 0 then (g, 0)
    else clearLoop fuel g (row - 1)

/-- The full scan over the visible rows, starting at the bottom visible row
`BoardHeight - 1`. -/
def clearScan (g : List Nat) : List Nat × Nat :=
  clearLoop 64 g (BoardHeight - 1)

/-- Source `Board.Next` from `board.go` (lines 224–304): the single advance
operation.  `PickTile`'s randomness is modelled by the explicit arguments
`p1` (used when no next tile exists yet) and `p2` (the freshly picked next
tile of the settle tick), following the spec's injectable random source
(§9).  The freeze step's row clearing and quadratic scoring
(`score += cleared²`) are modelled from the spec (see `clearScan`); the
rest follows the `src/` snapshot line by line.  Returns the new board, the
visible-grid snapshot (`workingGrid[:BoardHeight]`) and the game-over
flag. -/
def Board.Next (p1 p2 : Tile) (b : Board) : Board × List Nat × Bool :=
  let nt := b.nextTile.getD p1
  match b.tile with
  | none =>
    ({ b with tile := some nt, nextTile := some p2, tileDepth := 0 },
      b.grid.take BoardHeight, false)
  | some t =>
    let workingGrid := mergeTile b.grid t b.tileDepth
    let tileDone := checkCollisions b.grid t (b.tileDepth + 1)
    let gameDone := tileDone && decide (b.tileDepth < TileSize)
    if tileDone then
      let res := clearScan (workingGrid.take BoardHeight)
      let newGrid := res.1 ++ workingGrid.drop BoardHeight
      ({ b with
          tile := none
          nextTile := some nt
          grid := newGrid
          score := b.score + res.2 * res.2 },
        newGrid.take BoardHeight, gameDone)
    else
      ({ b with nextTile := some nt, tileDepth := b.tileDepth + 1 },
        workingGrid.take BoardHeight, gameDone)

/-- Source `Board.moveX` from `board.go` (lines 313–324): no active tile or a
colliding tentative move returns `false` and leaves the board unchanged;
otherwise the moved tile is committed. -/
def Board.moveX (b : Board) (dir : XDirection) : Board × Bool :=
  match b.tile with
  | none => (b, false)
  | some t =>
    let tempTile := t.MoveX dir
    if checkCollisions b.grid tempTile b.tileDepth then (b, false)
    else ({ b with tile := some tempTile }, true)

/-- Source `Board.MoveLeft` from `board.go`. -/
def Board.MoveLeft (b : Board) : Board × Bool := b.moveX .Left

/-- Source `Board.MoveRight` from `board.go`. -/
def Board.MoveRight (b : Board) : Board × Bool := b.moveX .Right

/-- Modelled from the spec: the edge masks of `Board.Rotate`'s pre-shift for
the 10-wide layout (the `src/` snapshot's `0b11000000`/`0b00000011` cover
the two leftmost/rightmost of its 8 columns; here the two leftmost cells
with the adjacent pad bit, and symmetrically). -/
def rotLeftBoundMask : Nat := 0xFE000000

/-- Modelled from the spec: right-edge mask of `Board.Rotate`'s pre-shift,
the two rightmost cells with the adjacent pad bit. -/
def rotRightBoundMask : Nat := 0x7F

/-- The pre-shift of `Board.Rotate` (lines 199–209): the first shape row
touching an edge (left checked first) triggers a double shift away from
that edge. -/
def rotateShift (t : Tile) : Tile :=
  match t.shape.find? fun r =>
      Nat.land r rotLeftBoundMask ≠ 0 || Nat.land r rotRightBoundMask ≠ 0 with
  | none => t
  | some r =>
    if Nat.land r rotLeftBoundMask ≠ 0 then (t.MoveX .Right).MoveX .Right
    else (t.MoveX .Left).MoveX .Left

/-- Source `Board.Rotate` from `board.go` (lines 190–216): no active tile returns
`false`; otherwise a tentative copy is pre-shifted away from the edges,
rotated, and committed only if it does not collide at the current depth. -/
def Board.RotateTile (b : Board) : Board × Bool :=
  match b.tile with
  | none => (b, false)
  | some t =>
    let tempTile := (rotateShift t).Rotate
    if checkCollisions b.grid tempTile b.tileDepth then (b, false)
    else ({ b with tile := some tempTile }, true)

/-! ## The row-clear scan clears exactly the complete rows -/

theorem getD_append_cons (A : List Nat) (x : Nat) (B : List Nat) :
    (A ++ x :: B).getD A.length 0 = x := by
  induction A with
  | nil => rfl
  | cons a A ih => simpa using ih

theorem eraseIdx_append_cons (A : List Nat) (x : Nat) (B : List Nat) :
    (A ++ x :: B).eraseIdx A.length = A ++ B := by
  induction A with
  | nil => rfl
  | cons a A ih => simpa [List.eraseIdx] using ih

/-- The zero row prepended by a clear is never complete. -/
theorem isCompleteRow_zero : isCompleteRow 0 = false := by decide

theorem clearLoop_succ (fuel : Nat) (g : List Nat) (row : Nat) :
    clearLoop (fuel + 1) g row =
      if isCompleteRow (g.getD row 0) then
        ((clearLoop fuel (clearRow g row) row).1,
          (clearLoop fuel (clearRow g row) row).2 + 1)
      else if row = 0 then (g, 0)
      else clearLoop fuel g (row - 1) := rfl

theorem cnt_append_true {x : Nat} (A : List Nat) (hx : isCompleteRow x = true) :
    (A ++ [x]).countP isCompleteRow = A.countP isCompleteRow + 1 := by
  simp [List.countP_append, List.countP_cons, hx]

theorem cnt_append_false {x : Nat} (A : List Nat)
    (hx : isCompleteRow x = false) :
    (A ++ [x]).countP isCompleteRow = A.countP isCompleteRow := by
  simp [List.countP_append, List.countP_cons, hx]

theorem cnt_cons_zero (A : List Nat) :
    (0 :: A).countP isCompleteRow = A.countP isCompleteRow := by
  simp [List.countP_cons, isCompleteRow_zero]

theorem flt_append_true {x : Nat} (A : List Nat) (hx : isCompleteRow x = true) :
    (A ++ [x]).filter (fun r => !isCompleteRow r) =
      A.filter (fun r => !isCompleteRow r) := by
  simp [List.filter_append, List.filter_cons, hx]

theorem flt_append_false {x : Nat} (A : List Nat)
    (hx : isCompleteRow x = false) :
    (A ++ [x]).filter (fun r => !isCompleteRow r) =
      A.filter (fun r => !isCompleteRow r) ++ [x] := by
  simp [List.filter_append, List.filter_cons, hx]

theorem flt_cons_zero (A : List Nat) :
    (0 :: A).filter (fun r => !isCompleteRow r) =
      0 :: A.filter (fun r => !isCompleteRow r) := by
  simp [List.filter_cons, isCompleteRow_zero]

theorem replicate_zero_append_cons (n : Nat) (L : List Nat) :
    List.replicate n 0 ++ 0 :: L = 0 :: (List.replicate n 0 ++ L) := by
  induction n with
  | zero => rfl
  | succ n ih => simp [List.replicate_succ, ih]

/-- Main invariant of the bottom-to-top scan with re-examination: scanning a
grid split as `A ++ x :: B` at row index `A.length` (current row `x`, rows
`B` below it already scanned and incomplete) yields the rows `A ++ [x]`
with their complete rows removed and as many zero rows prepended, on top of
the untouched `B`, together with the number of removed rows. -/
theorem clearLoop_spec :
    ∀ (fuel : Nat) (A : List Nat) (x : Nat) (B : List Nat),
      (∀ b ∈ B, isCompleteRow b = false) →
      A.length + 1 + (A ++ [x]).countP isCompleteRow ≤ fuel →
      clearLoop fuel (A ++ x :: B) A.length =
        (List.replicate ((A ++ [x]).countP isCompleteRow) 0 ++
            (A ++ [x]).filter (fun r => !isCompleteRow r) ++ B,
          (A ++ [x]).countP isCompleteRow) := by
  intro fuel
  induction fuel with
  | zero => intro A x B _ hfuel; omega
  | succ fuel ih =>
    intro A x B hB hfuel
    rw [clearLoop_succ, getD_append_cons]
    by_cases hx : isCompleteRow x
    · rw [if_pos hx, clearRow, eraseIdx_append_cons]
      rw [cnt_append_true _ hx] at hfuel
      rcases A.eq_nil_or_concat with rfl | ⟨A₀, a, rfl⟩
      · simp only [List.length_nil, List.countP_nil] at hfuel
        have h0 := ih [] 0 B hB
          (by
            simp only [List.length_nil, List.nil_append, cnt_cons_zero,
              List.countP_nil]
            omega)
        simp only [List.nil_append, List.length_nil] at h0 ⊢
        rw [h0]
        simp [cnt_append_true, hx, isCompleteRow_zero, List.countP_cons,
          List.filter_cons]
      · simp only [List.concat_eq_append] at hfuel ⊢
        have hrec := ih (0 :: A₀) a B hB
          (by
            simp only [List.cons_append, cnt_cons_zero, List.length_cons,
              List.length_append, List.length_nil] at hfuel ⊢
            omega)
        simp only [List.cons_append, List.nil_append, List.append_assoc,
          List.singleton_append, List.length_cons, List.length_append,
          List.length_nil, Nat.zero_add, Nat.add_zero] at hrec ⊢
        rw [hrec]
        simp only [cnt_cons_zero, flt_cons_zero, Prod.mk.injEq]
        have hc : (A₀ ++ a :: [x]).countP isCompleteRow =
            (A₀ ++ [a]).countP isCompleteRow + 1 := by
          have := cnt_append_true (A₀ ++ [a]) hx
          simpa [List.append_assoc] using this
        have hf : (A₀ ++ a :: [x]).filter (fun r => !isCompleteRow r) =
            (A₀ ++ [a]).filter (fun r => !isCompleteRow r) := by
          have := flt_append_true (A₀ ++ [a]) hx
          simpa [List.append_assoc] using this
        rw [hc, hf]
        simp [List.replicate_succ, replicate_zero_append_cons]
    · have hx' : isCompleteRow x = false := by simpa using hx
      rw [if_neg hx]
      rw [cnt_append_false _ hx'] at hfuel
      rcases A.eq_nil_or_concat with rfl | ⟨A₀, a, rfl⟩
      · simp [List.countP_cons, List.countP_nil, List.filter_cons, hx']
      · simp only [List.concat_eq_append] at hfuel ⊢
        have hne : ¬ (A₀ ++ [a]).length = 0 := by simp
        rw [if_neg hne]
        have hrec := ih A₀ a (x :: B)
          (by
            intro b hb
            rcases List.mem_cons.mp hb with rfl | hb
            · exact hx'
            · exact hB b hb)
          (by
            simp only [List.length_append, List.length_cons,
              List.length_nil] at hfuel ⊢
            omega)
        simp only [List.cons_append, List.nil_append, List.append_assoc,
          List.singleton_append, List.length_cons, List.length_append,
          List.length_nil, Nat.zero_add, Nat.add_zero,
          Nat.add_sub_cancel] at hrec ⊢
        rw [hrec]
        have hc : (A₀ ++ a :: [x]).countP isCompleteRow =
            (A₀ ++ [a]).countP isCompleteRow := by
          have := cnt_append_false (A₀ ++ [a]) hx'
          simpa [List.append_assoc] using this
        have hf : (A₀ ++ a :: [x]).filter (fun r => !isCompleteRow r) =
            (A₀ ++ [a]).filter (fun r => !isCompleteRow r) ++ [x] := by
          have := flt_append_false (A₀ ++ [a]) hx'
          simpa [List.append_assoc] using this
        rw [hc, hf]
        simp

/-- The scan over a 20-row visible grid: the result is the incomplete rows
pushed to the bottom, below one fresh zero row per removed complete row,
and the count of removed rows is the count of complete rows. -/
theorem clearScan_spec (g : List Nat) (hg : g.length = BoardHeight) :
    clearScan g =
      (List.replicate (g.countP isCompleteRow) 0 ++
          g.filter (fun r => !isCompleteRow r),
        g.countP isCompleteRow) := by
  rcases g.eq_nil_or_concat with rfl | ⟨A, x, rfl⟩
  · simp [BoardHeight] at hg
  · simp only [List.concat_eq_append] at hg ⊢
    have hA : A.length = 19 := by
      simp only [List.length_append, List.length_cons, List.length_nil,
        BoardHeight] at hg
      omega
    have hcle : (A ++ [x]).countP isCompleteRow ≤ 20 := by
      have h1 := List.countP_le_length (p := isCompleteRow) (l := A ++ [x])
      simp only [List.length_append, List.length_cons, List.length_nil] at h1
      omega
    have h := clearLoop_spec 64 A x [] (by intro b hb; simp at hb)
      (by omega)
    rw [clearScan, show BoardHeight - 1 = A.length by rw [hA]; decide]
    simpa using h

/-- The scan preserves the number of rows. -/
theorem clearScan_length (g : List Nat) (hg : g.length = BoardHeight) :
    (clearScan g).1.length = BoardHeight := by
  rw [clearScan_spec g hg]
  have h3 := List.length_eq_countP_add_countP isCompleteRow g
  have h4 : List.countP (fun a => decide ¬isCompleteRow a = true) g =
      List.countP (fun r => !isCompleteRow r) g := by
    congr 1
    funext a
    cases h : isCompleteRow a <;> simp [h]
  have h2 : (List.filter (fun r => !isCompleteRow r) g).length =
      List.countP (fun r => !isCompleteRow r) g :=
    (List.countP_eq_length_filter _ _).symm
  simp only [List.length_append, List.length_replicate]
  omega

/-! ## Helpers about merged grids and bitwise rows -/

theorem lor_zero_right (a : Nat) : Nat.lor a 0 = a := Nat.or_zero a

theorem lor_assoc_nat (a b c : Nat) :
    Nat.lor (Nat.lor a b) c = Nat.lor a (Nat.lor b c) := Nat.or_assoc a b c

theorem getD_set_lor (g : List Nat) (d s j : Nat) :
    ∃ y, (g.set d (Nat.lor (g.getD d 0) s)).getD j 0 = Nat.lor (g.getD j 0) y := by
  by_cases hd : d < g.length
  · by_cases hj : d = j
    · subst hj
      exact ⟨s, by simp [List.getD_eq_getElem?_getD, List.getElem?_set_self hd]⟩
    · refine ⟨0, ?_⟩
      rw [List.getD_eq_getElem?_getD, List.getElem?_set_ne hj,
        ← List.getD_eq_getElem?_getD, lor_zero_right]
  · refine ⟨0, ?_⟩
    rw [List.set_eq_of_length_le (Nat.le_of_not_lt hd), lor_zero_right]

theorem set_lor_length (g : List Nat) (d s : Nat) :
    (g.set d (Nat.lor (g.getD d 0) s)).length = g.length :=
  List.length_set g d _

theorem mergeLoop_length (shape : List Nat) :
    ∀ (row : Nat) (g : List Nat) (d : Nat),
      (mergeLoop shape row g d).length = g.length := by
  intro row
  induction row with
  | zero => intro g d; simp [mergeLoop, List.length_set]
  | succ row ih =>
    intro g d
    rw [mergeLoop]
    by_cases hd : d = 0
    · simp [hd, List.length_set]
    · simp only [if_neg hd, ih, List.length_set]

theorem mergeLoop_getD (shape : List Nat) :
    ∀ (row : Nat) (g : List Nat) (d j : Nat),
      ∃ y, (mergeLoop shape row g d).getD j 0 = Nat.lor (g.getD j 0) y := by
  intro row
  induction row with
  | zero =>
    intro g d j
    simpa [mergeLoop] using getD_set_lor g d (shape.getD 0 0) j
  | succ row ih =>
    intro g d j
    rw [mergeLoop]
    by_cases hd : d = 0
    · subst hd
      simpa using getD_set_lor g 0 (shape.getD (row + 1) 0) j
    · simp only [if_neg hd]
      obtain ⟨y1, hy1⟩ := getD_set_lor g d (shape.getD (row + 1) 0) j
      obtain ⟨y2, hy2⟩ :=
        ih (g.set d (Nat.lor (g.getD d 0) (shape.getD (row + 1) 0))) (d - 1) j
      exact ⟨Nat.lor y1 y2, by rw [hy2, hy1, lor_assoc_nat]⟩

theorem mergeTile_length (grid : List Nat) (t : Tile) (d : Nat) :
    (mergeTile grid t d).length = grid.length := by
  rw [mergeTile]
  split
  · rfl
  · exact mergeLoop_length _ _ _ _

theorem mergeTile_getD (grid : List Nat) (t : Tile) (d j : Nat) :
    ∃ y, (mergeTile grid t d).getD j 0 = Nat.lor (grid.getD j 0) y := by
  rw [mergeTile]
  split
  · exact ⟨0, (lor_zero_right _).symm⟩
  · exact mergeLoop_getD _ _ _ _ _

theorem testBit_land_nat (a b i : Nat) :
    (Nat.land a b).testBit i = (a.testBit i && b.testBit i) :=
  Nat.testBit_land a b i

theorem testBit_lor_nat (a b i : Nat) :
    (Nat.lor a b).testBit i = (a.testBit i || b.testBit i) :=
  Nat.testBit_lor a b i

/-- ORing more bits into a word cannot unset bits already covered by a
mask. -/
theorem land_lor_of_land (a m s : Nat) (h : Nat.land a m = m) :
    Nat.land (Nat.lor a s) m = m := by
  apply Nat.eq_of_testBit_eq
  intro i
  have hb := congrArg (fun x => Nat.testBit x i) h
  simp only [testBit_land_nat, testBit_lor_nat] at hb ⊢
  cases hm : Nat.testBit m i
  · rw [Bool.and_false]
  · rw [hm, Bool.and_true] at hb
    rw [hb, Bool.true_or, Bool.true_and]

/-! ## Unfolding lemmas for `Board.Next` -/

theorem next_settle (b : Board) (p1 p2 : Tile) (hb : b.tile = none) :
    Board.Next p1 p2 b =
      ({ b with
          tile := some (b.nextTile.getD p1)
          nextTile := some p2
          tileDepth := 0 },
        b.grid.take BoardHeight, false) := by
  simp [Board.Next, hb]

theorem next_freeze (b : Board) (t p1 p2 : Tile) (hb : b.tile = some t)
    (hcol : checkCollisions b.grid t (b.tileDepth + 1) = true) :
    Board.Next p1 p2 b =
      ({ b with
          tile := none
          nextTile := some (b.nextTile.getD p1)
          grid :=
            (clearScan ((mergeTile b.grid t b.tileDepth).take BoardHeight)).1 ++
              (mergeTile b.grid t b.tileDepth).drop BoardHeight
          score := b.score +
            (clearScan ((mergeTile b.grid t b.tileDepth).take BoardHeight)).2 *
              (clearScan ((mergeTile b.grid t b.tileDepth).take BoardHeight)).2 },
        ((clearScan ((mergeTile b.grid t b.tileDepth).take BoardHeight)).1 ++
            (mergeTile b.grid t b.tileDepth).drop BoardHeight).take BoardHeight,
        decide (b.tileDepth < TileSize)) := by
  simp [Board.Next, hb, hcol]

theorem next_fall (b : Board) (t p1 p2 : Tile) (hb : b.tile = some t)
    (hcol : checkCollisions b.grid t (b.tileDepth + 1) = false) :
    Board.Next p1 p2 b =
      ({ b with
          nextTile := some (b.nextTile.getD p1)
          tileDepth := b.tileDepth + 1 },
        (mergeTile b.grid t b.tileDepth).take BoardHeight, false) := by
  simp [Board.Next, hb, hcol]

/-- Record update with the value a field already has is the identity. -/
theorem board_eta_tile {b : Board} {t : Tile} (hb : b.tile = some t) :
    { b with tile := some t } = b := by
  cases b
  cases hb
  rfl

/-! ## Claim C4 — the settle tick -/

/-- C4: for every field state with no active piece, one `advance()` promotes
the upcoming piece to active, picks a new upcoming piece, resets fall-depth
to 0, and returns immediately with the persisted grid unmodified and
game-over = false; on a freshly constructed field the returned grid is the
initial empty one. -/
theorem claim_c4_settle_tick (b : Board) (p1 p2 : Tile) (hb : b.tile = none) :
    Board.Next p1 p2 b =
      ({ b with
          tile := some (b.nextTile.getD p1)
          nextTile := some p2
          tileDepth := 0 },
        b.grid.take BoardHeight, false) ∧
    (Board.Next p1 p2 NewBoard).2 =
      (List.replicate BoardHeight 0, false) :=
  ⟨next_settle b p1 p2 hb, rfl⟩

theorem claim_c4_settle_tick_witness :
    Board.Next tilePipe tileS NewBoard =
      ({ NewBoard with
          tile := some (NewBoard.nextTile.getD tilePipe)
          nextTile := some tileS
          tileDepth := 0 },
        NewBoard.grid.take BoardHeight, false) ∧
    (Board.Next tilePipe tileS NewBoard).2 =
      (List.replicate BoardHeight 0, false) :=
  claim_c4_settle_tick NewBoard tilePipe tileS rfl

/-! ## Claim C6 — mutators are total and fail without state change -/

/-- C6: `moveX` (hence `MoveLeft`/`MoveRight`) and the board-level rotation
are total Boolean-returning operations; with no active piece, or when the
tentative (moved, resp. pre-shifted-and-rotated) piece collides at the
current depth, they return `false` and the entire field state is exactly as
before; and in general whenever they report `false` the board is returned
unchanged. -/
theorem claim_c6_mutators_total (b : Board) (dir : XDirection) :
    (b.tile = none →
      b.moveX dir = (b, false) ∧ b.RotateTile = (b, false)) ∧
    (∀ t : Tile, b.tile = some t →
      (checkCollisions b.grid (t.MoveX dir) b.tileDepth = true →
        b.moveX dir = (b, false)) ∧
      (checkCollisions b.grid ((rotateShift t).Rotate) b.tileDepth = true →
        b.RotateTile = (b, false))) ∧
    ((b.moveX dir).2 = false → (b.moveX dir).1 = b) ∧
    ((b.RotateTile).2 = false → (b.RotateTile).1 = b) := by
  refine ⟨fun h => by simp [Board.moveX, Board.RotateTile, h], ?_, ?_, ?_⟩
  · intro t hb
    constructor
    · intro hcol
      simp [Board.moveX, hb, hcol]
    · intro hcol
      simp [Board.RotateTile, hb, hcol]
  · cases hb : b.tile with
    | none => simp [Board.moveX, hb]
    | some t =>
      simp only [Board.moveX, hb]
      split
      · intro _; rfl
      · intro hfalse; simp at hfalse
  · cases hb : b.tile with
    | none => simp [Board.RotateTile, hb]
    | some t =>
      simp only [Board.RotateTile, hb]
      split
      · intro _; rfl
      · intro hfalse; simp at hfalse

/-- A board on which both illegal mutations actually arise: the pipe at
depth 10 has a settled cell directly to its left at row 10 (blocking
`MoveLeft`) and a settled cell at row 7 under its rotated horizontal-bar
form (blocking the rotation). -/
def blockedMutatorBoard : Board :=
  { grid := List.replicate 7 0 ++ [7 <<< 13] ++ List.replicate 2 0 ++
      [7 <<< 16] ++ List.replicate 9 0 ++ [fullRowMask]
    score := 0
    tile := some tilePipe
    nextTile := some tileS
    tileDepth := 10 }

theorem claim_c6_mutators_total_witness :
    blockedMutatorBoard.moveX .Left = (blockedMutatorBoard, false) ∧
    blockedMutatorBoard.RotateTile = (blockedMutatorBoard, false) :=
  ⟨((claim_c6_mutators_total blockedMutatorBoard .Left).2.1 tilePipe rfl).1
      (by decide),
    ((claim_c6_mutators_total blockedMutatorBoard .Left).2.1 tilePipe rfl).2
      (by decide)⟩

/-! ## Claim C10 — edge-blocked shifts report success -/

/-- C10: with an active piece that does not collide at the current depth and
whose shape touches the left (resp. right) board edge, `MoveLeft`
(resp. `MoveRight`) returns `true` and the whole field state — piece shape,
fall depth, grid and score — is unchanged: the edge check inside
`Tile.MoveX` silently no-ops before the collision test. -/
theorem claim_c10_edge_move_success (b : Board) (t : Tile)
    (hb : b.tile = some t)
    (hnc : checkCollisions b.grid t b.tileDepth = false) :
    ((t.shape.any fun r => Nat.land r leftBoundMaskT ≠ 0) = true →
      b.MoveLeft = (b, true)) ∧
    ((t.shape.any fun r => Nat.land r rightBoundMaskT ≠ 0) = true →
      b.MoveRight = (b, true)) := by
  constructor
  · intro hflush
    have hmv : t.MoveX .Left = t := by
      simp only [Tile.MoveX]
      rw [if_pos hflush]
    simp [Board.MoveLeft, Board.moveX, hb, hmv, hnc, board_eta_tile hb]
  · intro hflush
    have hmv : t.MoveX .Right = t := by
      simp only [Tile.MoveX]
      rw [if_pos hflush]
    simp [Board.MoveRight, Board.moveX, hb, hmv, hnc, board_eta_tile hb]

/-- A board with the pipe tile flush against the right edge (shifted right
four times from spawn), used to witness C10. -/
def pipeRightFlush : Tile :=
  ((((tilePipe.MoveX .Right).MoveX .Right).MoveX .Right).MoveX .Right)

theorem claim_c10_edge_move_success_witness :
    (pipeRightFlush.shape.any fun r => Nat.land r rightBoundMaskT ≠ 0) = true ∧
    { NewBoard with tile := some pipeRightFlush }.MoveRight =
      ({ NewBoard with tile := some pipeRightFlush }, true) :=
  ⟨by decide,
    (claim_c10_edge_move_success { NewBoard with tile := some pipeRightFlush }
      pipeRightFlush rfl (by decide)).2 (by decide)⟩

/-! ## Claim C9 — the phantom row stays fully set -/

/-- The grid shape invariant: `BoardHeight + 1` rows, with every cell bit of
the phantom row (index `BoardHeight`) set. -/
def PhantomSet (g : List Nat) : Prop :=
  g.length = BoardHeight + 1 ∧
  Nat.land (g.getD BoardHeight 0) fullRowMask = fullRowMask

instance (g : List Nat) : Decidable (PhantomSet g) := by
  unfold PhantomSet
  infer_instance

/-- C9: the grid has exactly `BoardHeight + 1` rows and a fully-set phantom
row after construction, and every operation preserves this: the horizontal
moves and the rotation never touch the grid, and `advance()` (including a
freeze with row clearing, which never shifts into the phantom row, and the
merge, which only ORs bits in) preserves it. -/
theorem claim_c9_phantom_invariant :
    PhantomSet NewBoard.grid ∧
    (∀ (b : Board) (p1 p2 : Tile), PhantomSet b.grid →
      PhantomSet (Board.Next p1 p2 b).1.grid) ∧
    (∀ (b : Board) (dir : XDirection), (b.moveX dir).1.grid = b.grid) ∧
    (∀ b : Board, (b.RotateTile).1.grid = b.grid) := by
  refine ⟨by decide, ?_, ?_, ?_⟩
  · intro b p1 p2 hP
    cases hb : b.tile with
    | none => rw [next_settle b p1 p2 hb]; exact hP
    | some t =>
      cases hcol : checkCollisions b.grid t (b.tileDepth + 1) with
      | false => rw [next_fall b t p1 p2 hb hcol]; exact hP
      | true =>
        rw [next_freeze b t p1 p2 hb hcol]
        have hwl : (mergeTile b.grid t b.tileDepth).length = BoardHeight + 1 := by
          rw [mergeTile_length, hP.1]
        have htake : ((mergeTile b.grid t b.tileDepth).take BoardHeight).length =
            BoardHeight := by
          rw [List.length_take, hwl]
          simp
        have hvl := clearScan_length _ htake
        constructor
        · simp only [List.length_append, hvl, List.length_drop, hwl]
          omega
        · have hidx : ((clearScan
              ((mergeTile b.grid t b.tileDepth).take BoardHeight)).1 ++
                (mergeTile b.grid t b.tileDepth).drop BoardHeight).getD
              BoardHeight 0 =
              (mergeTile b.grid t b.tileDepth).getD BoardHeight 0 := by
            rw [List.getD_eq_getElem?_getD,
              List.getElem?_append_right (by rw [hvl]), hvl]
            simp only [Nat.sub_self, List.getElem?_drop, Nat.add_zero]
            rw [← List.getD_eq_getElem?_getD]
          rw [hidx]
          obtain ⟨y, hy⟩ := mergeTile_getD b.grid t b.tileDepth BoardHeight
          rw [hy]
          exact land_lor_of_land _ _ _ hP.2
  · intro b dir
    cases hb : b.tile with
    | none => simp [Board.moveX, hb]
    | some t =>
      simp only [Board.moveX, hb]
      split <;> rfl
  · intro b
    cases hb : b.tile with
    | none => simp [Board.RotateTile, hb]
    | some t =>
      simp only [Board.RotateTile, hb]
      split <;> rfl

/-- A board whose pipe tile is about to freeze on the floor, used to witness
C9 through the freeze path of `Board.Next`. -/
def phantomWitnessBoard : Board :=
  { grid := NewBoard.grid
    score := 0
    tile := some tilePipe
    nextTile := some tileZ
    tileDepth := 19 }

theorem claim_c9_phantom_invariant_witness :
    PhantomSet (Board.Next tilePipe tileS phantomWitnessBoard).1.grid :=
  claim_c9_phantom_invariant.2.1 phantomWitnessBoard tilePipe tileS (by decide)

/-! ## Claim C1 — the freeze step clears every complete row -/

/-- C1: at a freeze of `advance()`, the bottom-to-top scan with
re-examination removes every complete row of the merged working grid: the
resulting visible grid is exactly the incomplete rows of the working grid
below one fresh zero row per removed row, and no complete row remains
(in particular adjacent complete rows are both removed). -/
theorem claim_c1_clear_cascade (b : Board) (t p1 p2 : Tile)
    (hb : b.tile = some t)
    (hlen : b.grid.length = BoardHeight + 1)
    (hcol : checkCollisions b.grid t (b.tileDepth + 1) = true) :
    (Board.Next p1 p2 b).1.grid.take BoardHeight =
      List.replicate
          (((mergeTile b.grid t b.tileDepth).take BoardHeight).countP
            isCompleteRow) 0 ++
        ((mergeTile b.grid t b.tileDepth).take BoardHeight).filter
          (fun r => !isCompleteRow r) ∧
    ((Board.Next p1 p2 b).1.grid.take BoardHeight).countP isCompleteRow = 0 := by
  have hwl : (mergeTile b.grid t b.tileDepth).length = BoardHeight + 1 := by
    rw [mergeTile_length, hlen]
  have htake : ((mergeTile b.grid t b.tileDepth).take BoardHeight).length =
      BoardHeight := by
    rw [List.length_take, hwl]
    simp
  have hvl := clearScan_length _ htake
  have hgrid : (Board.Next p1 p2 b).1.grid.take BoardHeight =
      (clearScan ((mergeTile b.grid t b.tileDepth).take BoardHeight)).1 := by
    rw [next_freeze b t p1 p2 hb hcol]
    show ((clearScan ((mergeTile b.grid t b.tileDepth).take BoardHeight)).1 ++
        (mergeTile b.grid t b.tileDepth).drop BoardHeight).take BoardHeight =
      (clearScan ((mergeTile b.grid t b.tileDepth).take BoardHeight)).1
    rw [List.take_left' hvl]
  constructor
  · rw [hgrid, clearScan_spec _ htake]
  · rw [hgrid, clearScan_spec _ htake]
    rw [List.countP_append, List.countP_filter]
    have h1 : (List.replicate
        (((mergeTile b.grid t b.tileDepth).take BoardHeight).countP
          isCompleteRow) (0 : Nat)).countP isCompleteRow = 0 := by
      induction (((mergeTile b.grid t b.tileDepth).take BoardHeight).countP
          isCompleteRow) with
      | zero => rfl
      | succ n ih =>
        rw [List.replicate_succ, List.countP_cons, ih, isCompleteRow_zero]
        rfl
    rw [h1]
    have h2 : ∀ L : List Nat,
        L.countP (fun a => isCompleteRow a && !isCompleteRow a) = 0 := by
      intro L
      induction L with
      | nil => rfl
      | cons a L ih =>
        rw [List.countP_cons, ih]
        cases h : isCompleteRow a <;> simp [h]
    rw [h2]

/-- A board with two adjacent complete rows (18 and 19) at freeze time, used
to witness that both vanish in a single freeze. -/
def doubleClearBoard : Board :=
  { grid := List.replicate 18 0 ++ [fullRowMask, fullRowMask, fullRowMask]
    score := 0
    tile := some tilePipe
    nextTile := some tileS
    tileDepth := 17 }

theorem claim_c1_clear_cascade_witness :
    (Board.Next tileS tileZ doubleClearBoard).1.grid.take BoardHeight =
      List.replicate
          (((mergeTile doubleClearBoard.grid tilePipe
              doubleClearBoard.tileDepth).take BoardHeight).countP
            isCompleteRow) 0 ++
        ((mergeTile doubleClearBoard.grid tilePipe
            doubleClearBoard.tileDepth).take BoardHeight).filter
          (fun r => !isCompleteRow r) ∧
    ((Board.Next tileS tileZ doubleClearBoard).1.grid.take
        BoardHeight).countP isCompleteRow = 0 :=
  claim_c1_clear_cascade doubleClearBoard tilePipe tileS tileZ rfl (by decide)
    (by decide)

/-! ## Claim C2 — quadratic scoring -/

/-- C2: a freeze of `advance()` that clears `N` rows adds exactly `N²` to
the score (so a freeze clearing nothing leaves it unchanged), and a
non-freezing `advance()` does not touch the score either. -/
theorem claim_c2_score_quadratic (b : Board) (t p1 p2 : Tile)
    (hb : b.tile = some t)
    (hlen : b.grid.length = BoardHeight + 1) :
    (checkCollisions b.grid t (b.tileDepth + 1) = true →
      (Board.Next p1 p2 b).1.score =
        b.score +
          ((mergeTile b.grid t b.tileDepth).take BoardHeight).countP
              isCompleteRow *
            ((mergeTile b.grid t b.tileDepth).take BoardHeight).countP
              isCompleteRow) ∧
    (checkCollisions b.grid t (b.tileDepth + 1) = false →
      (Board.Next p1 p2 b).1.score = b.score) := by
  have hwl : (mergeTile b.grid t b.tileDepth).length = BoardHeight + 1 := by
    rw [mergeTile_length, hlen]
  have htake : ((mergeTile b.grid t b.tileDepth).take BoardHeight).length =
      BoardHeight := by
    rw [List.length_take, hwl]
    simp
  constructor
  · intro hcol
    rw [next_freeze b t p1 p2 hb hcol]
    show b.score + _ * _ = _
    rw [clearScan_spec _ htake]
  · intro hcol
    rw [next_fall b t p1 p2 hb hcol]

/-- A board with exactly one complete row at freeze time (row 19), used to
witness the quadratic score increment. -/
def singleClearBoard : Board :=
  { grid := List.replicate 19 0 ++ [fullRowMask, fullRowMask]
    score := 5
    tile := some tilePipe
    nextTile := some tileS
    tileDepth := 18 }

theorem claim_c2_score_quadratic_witness :
    (Board.Next tileS tileZ singleClearBoard).1.score =
      singleClearBoard.score +
        ((mergeTile singleClearBoard.grid tilePipe
            singleClearBoard.tileDepth).take BoardHeight).countP
            isCompleteRow *
          ((mergeTile singleClearBoard.grid tilePipe
              singleClearBoard.tileDepth).take BoardHeight).countP
            isCompleteRow :=
  (claim_c2_score_quadratic singleClearBoard tilePipe tileS tileZ rfl
    (by decide)).1 (by decide)

/-! ## Claim C3 — the game-over condition -/

/-- Count of leading all-zero rows of the shape (the "top gap"). -/
def topGap (t : Tile) : Nat := countLeadingZeroRows t.shape

/-- The whole occupied part of the tile lies at or below grid row 0 at depth
`d`: the bottom occupied row sits at the gap-adjusted index, and the top
occupied row is `TileSize - 1 - bottomGap - topGap` rows above it. -/
def fullyEntered (t : Tile) (d : Nat) : Prop :=
  TileSize - 1 - t.GetBottomGap - topGap t ≤ adjDepth t d

instance (t : Tile) (d : Nat) : Decidable (fullyEntered t d) := by
  unfold fullyEntered
  infer_instance

/-- A board whose pipe tile is fully visible (rows 0–3) above a column
stack reaching row 4, so the next `advance()` freezes it: the claimed
"game-over iff part of the piece above row 0" fails here, since the piece
is entirely at or below row 0 yet game-over is reported. -/
def fullyVisibleFreezeBoard : Board :=
  { grid := List.replicate 4 0 ++ List.replicate 16 (7 <<< 13) ++ [fullRowMask]
    score := 0
    tile := some tilePipe
    nextTile := some tilePipe
    tileDepth := 3 }

theorem claim_c3_counterexample :
    fullyVisibleFreezeBoard.tile = some tilePipe ∧
    checkCollisions fullyVisibleFreezeBoard.grid tilePipe
      (fullyVisibleFreezeBoard.tileDepth + 1) = true ∧
    fullyEntered tilePipe fullyVisibleFreezeBoard.tileDepth ∧
    (Board.Next tilePipe tilePipe fullyVisibleFreezeBoard).2.2 = true :=
  ⟨rfl, by decide, by decide, by decide⟩

/-- C3 (amended): the game-over flag returned by a freezing `advance()` is
true iff the freeze occurred at fall-depth < `TileSize` (the piece has not
yet advanced a full shape-box height); a non-freezing `advance()` returns
false.  Any freeze in which part of the occupied shape is still above row 0
satisfies fall-depth < `TileSize`, so those freezes do end the game, but
the converse fails: a fully visible piece freezing at depth 3 still reports
game-over (see the counterexample). -/
theorem claim_c3_gameover_iff_depth (b : Board) (t p1 p2 t' : Tile) (d : Nat)
    (hb : b.tile = some t) (hnf : ¬ fullyEntered t' d) :
    (Board.Next p1 p2 b).2.2 =
      (checkCollisions b.grid t (b.tileDepth + 1) &&
        decide (b.tileDepth < TileSize)) ∧
    d < TileSize := by
  constructor
  · cases hcol : checkCollisions b.grid t (b.tileDepth + 1) with
    | true => rw [next_freeze b t p1 p2 hb hcol, Bool.true_and]
    | false => rw [next_fall b t p1 p2 hb hcol, Bool.false_and]
  · unfold fullyEntered adjDepth at hnf
    simp only [TileSize] at hnf ⊢
    by_cases hgt : d > t'.GetBottomGap
    · rw [if_pos hgt] at hnf
      omega
    · rw [if_neg hgt] at hnf
      omega

/-- A board with the pipe tile far from the floor, used to witness the
amended C3 through the non-freezing path. -/
def pipeFallingBoard : Board :=
  { grid := NewBoard.grid
    score := 0
    tile := some tilePipe
    nextTile := some tileS
    tileDepth := 5 }

theorem claim_c3_gameover_iff_depth_witness :
    ((Board.Next tileS tileZ pipeFallingBoard).2.2 =
      (checkCollisions pipeFallingBoard.grid tilePipe
        (pipeFallingBoard.tileDepth + 1) &&
        decide (pipeFallingBoard.tileDepth < TileSize)) ∧
    (0 : Nat) < TileSize) :=
  claim_c3_gameover_iff_depth pipeFallingBoard tilePipe tileS tileZ
    tilePipe 0 rfl (by decide)

/-! ## Claim C5 — the collision check -/

/-- Tiles reachable from the canonical shape table by horizontal moves and
rotations. -/
inductive ReachableTile : Tile → Prop where
  | canon : ∀ t, t ∈ canonicalTiles → ReachableTile t
  | move : ∀ t dir, ReachableTile t → ReachableTile (t.MoveX dir)
  | rot : ∀ t, ReachableTile t → ReachableTile t.Rotate

/-- The collision loop reports a collision exactly when some checked pair of
grid row `d - k` and shape row `row - k` (for `k` up to where either index
bottoms out at 0) has a nonzero AND of collision row and shape row. -/
theorem collideLoop_iff (grid shape : List Nat) :
    ∀ (row d : Nat),
      collideLoop grid shape row d = true ↔
        ∃ k, k ≤ min row d ∧
          Nat.land (buildCollisionRow (grid.getD (d - k) 0))
            (shape.getD (row - k) 0) ≠ 0 := by
  intro row
  induction row with
  | zero =>
    intro d
    rw [collideLoop, decide_eq_true_iff]
    constructor
    · intro h
      exact ⟨0, by simp, by simpa using h⟩
    · rintro ⟨k, hk, h⟩
      have hk0 : k = 0 := by
        rw [Nat.le_min] at hk
        omega
      subst hk0
      simpa using h
  | succ row ih =>
    intro d
    rw [collideLoop]
    by_cases hhit :
        Nat.land (buildCollisionRow (grid.getD d 0)) (shape.getD (row + 1) 0) ≠ 0
    · rw [if_pos hhit]
      constructor
      · intro _
        exact ⟨0, by simp, by simpa using hhit⟩
      · intro _
        rfl
    · rw [if_neg hhit]
      by_cases hd : d = 0
      · subst hd
        rw [if_pos rfl]
        constructor
        · intro h
          cases h
        · rintro ⟨k, hk, h⟩
          have hk0 : k = 0 := by
            rw [Nat.le_min] at hk
            omega
          subst hk0
          simp only [Nat.sub_zero] at h
          exact absurd h hhit
      · rw [if_neg hd, ih (d - 1)]
        constructor
        · rintro ⟨k, hk, h⟩
          rw [Nat.le_min] at hk
          refine ⟨k + 1, by rw [Nat.le_min]; omega, ?_⟩
          have e1 : d - (k + 1) = d - 1 - k := by omega
          have e2 : row + 1 - (k + 1) = row - k := by omega
          rw [e1, e2]
          exact h
        · rintro ⟨k, hk, h⟩
          cases k with
          | zero =>
            simp only [Nat.sub_zero] at h
            exact absurd h hhit
          | succ k =>
            rw [Nat.le_min] at hk
            refine ⟨k, by rw [Nat.le_min]; omega, ?_⟩
            have e1 : d - 1 - k = d - (k + 1) := by omega
            have e2 : row - k = row + 1 - (k + 1) := by omega
            rw [e1, e2]
            exact h

/-- The visible rows of a fresh board are all zero. -/
theorem newBoard_visible_zero (i : Nat) (hi : i < BoardHeight) :
    NewBoard.grid.getD i 0 = 0 := by
  show (List.replicate BoardHeight 0 ++ [fullRowMask]).getD i 0 = 0
  rw [List.getD_eq_getElem?_getD,
    List.getElem?_append_left (by simpa using hi), List.getElem?_replicate,
    if_pos hi]
  rfl

theorem buildCollisionRow_zero : buildCollisionRow 0 = 0 := by decide

theorem land_zero_left (x : Nat) : Nat.land 0 x = 0 := Nat.zero_and x

/-- C5: against the all-empty fresh grid (only the phantom row set), the
collision check is false for every reachable piece at every gap-adjusted
depth above the phantom row; and in general it returns true exactly when
some row-level AND between a normalized (collision-row) grid row and the
piece's shape row at the gap-adjusted position is nonzero, the iteration
stopping at grid row 0. -/
theorem claim_c5_collision_characterization :
    (∀ (t : Tile) (d : Nat), ReachableTile t → adjDepth t d < BoardHeight →
      checkCollisions NewBoard.grid t d = false) ∧
    (∀ (grid : List Nat) (t : Tile) (d : Nat),
      t.GetBottomGap ≤ TileSize - 1 →
      (checkCollisions grid t d = true ↔
        ∃ k, k ≤ min (TileSize - 1 - t.GetBottomGap) (adjDepth t d) ∧
          Nat.land (buildCollisionRow (grid.getD (adjDepth t d - k) 0))
            (t.shape.getD (TileSize - 1 - t.GetBottomGap - k) 0) ≠ 0)) := by
  have hiff : ∀ (grid : List Nat) (t : Tile) (d : Nat),
      t.GetBottomGap ≤ TileSize - 1 →
      (checkCollisions grid t d = true ↔
        ∃ k, k ≤ min (TileSize - 1 - t.GetBottomGap) (adjDepth t d) ∧
          Nat.land (buildCollisionRow (grid.getD (adjDepth t d - k) 0))
            (t.shape.getD (TileSize - 1 - t.GetBottomGap - k) 0) ≠ 0) := by
    intro grid t d hgap
    rw [checkCollisions]
    rw [if_neg (by simp only [TileSize] at hgap ⊢; omega)]
    exact collideLoop_iff grid t.shape (TileSize - 1 - t.GetBottomGap)
      (adjDepth t d)
  refine ⟨?_, hiff⟩
  intro t d _ hdepth
  by_cases hgap : t.GetBottomGap ≥ TileSize
  · rw [checkCollisions, if_pos hgap]
  · cases hcc : checkCollisions NewBoard.grid t d with
    | false => rfl
    | true =>
      exfalso
      obtain ⟨k, hk, h⟩ :=
        (hiff NewBoard.grid t d (by simp only [TileSize] at hgap ⊢; omega)).mp
          hcc
      have hz : NewBoard.grid.getD (adjDepth t d - k) 0 = 0 :=
        newBoard_visible_zero _ (by omega)
      rw [hz, buildCollisionRow_zero, land_zero_left] at h
      exact h rfl

theorem claim_c5_collision_characterization_witness :
    checkCollisions NewBoard.grid tilePipe 5 = false ∧
    (checkCollisions NewBoard.grid tileS 20 = true ↔
      ∃ k, k ≤ min (TileSize - 1 - tileS.GetBottomGap) (adjDepth tileS 20) ∧
        Nat.land
          (buildCollisionRow (NewBoard.grid.getD (adjDepth tileS 20 - k) 0))
          (tileS.shape.getD (TileSize - 1 - tileS.GetBottomGap - k) 0) ≠ 0) :=
  ⟨claim_c5_collision_characterization.1 tilePipe 5
      (ReachableTile.canon tilePipe (by decide)) (by decide),
    claim_c5_collision_characterization.2 NewBoard.grid tileS 20 (by decide)⟩

/-! ## Claim C7 — four rotations -/

/-- Iterated application of `Tile.Rotate`, `n` times. -/
def rotIter : Nat → Tile → Tile
  | 0, t => t
  | n + 1, t => rotIter n t.Rotate

/-- The occupied pattern translated one row up and one column right:
row `i` of the result is row `i + 1` of the input shifted one cell to the
right, and the bottom row is empty. -/
def shiftUpRight (t : Tile) : Tile :=
  { t with
    shape := (t.shape.drop 1).map (fun r => r >>> blockBitSize) ++ [0] }

/-- The claim "Rotate() applied four times to any non-square piece restores
the original occupied-cell pattern" fails on the canonical S piece:
`Tile.Rotate` is a transpose anchored at the minimum occupied column, so two
applications translate a spawn shape (whose top row is empty) one row up
and one column right instead of restoring it. -/
theorem claim_c7_counterexample : ¬ rotIter 4 tileS = tileS := by decide

/-- C7 (amended): for the five non-square canonical pieces whose spawn box
has an empty top row, four rotations yield the spawn pattern translated one
row up and one column right (and the third rotation already equals the
first, the orbit after the first rotation having period two); the pipe,
whose spawn box starts at its top row, is restored exactly by four
rotations; and the square piece's shape is unchanged by any number of
rotations, in any state, thanks to the Cyan short-circuit. -/
theorem claim_c7_rotate_flip :
    (∀ t ∈ [tileLLeft, tileLRight, tileTri, tileS, tileZ],
      rotIter 4 t = shiftUpRight t ∧ rotIter 3 t = rotIter 1 t) ∧
    rotIter 4 tilePipe = tilePipe ∧
    (∀ (n : Nat) (t : Tile), t.color = .Cyan → rotIter n t = t) := by
  refine ⟨by decide, by decide, ?_⟩
  intro n
  induction n with
  | zero =>
    intro t _
    rfl
  | succ n ih =>
    intro t hc
    have hr : t.Rotate = t := by
      rw [Tile.Rotate, if_pos hc]
    rw [rotIter, hr]
    exact ih t hc

theorem claim_c7_rotate_flip_witness :
    (rotIter 4 tileS = shiftUpRight tileS ∧ rotIter 3 tileS = rotIter 1 tileS) ∧
    rotIter 5 tileSquare = tileSquare :=
  ⟨claim_c7_rotate_flip.1 tileS (by decide),
    claim_c7_rotate_flip.2.2 5 tileSquare rfl⟩

/-! ## Claim C8 — in-bounds indexing of the two grid loops -/

/-- The grid row indices visited by `collideLoop` and the merge loop of
`Board.Next`, mirroring their shared index arithmetic: start at the
gap-adjusted depth, decrement once per shape row, stop when either the
shape rows run out or row 0 is reached. -/
def loopIndices : Nat → Nat → List Nat
  | 0, d => [d]
  | row + 1, d => d :: (if d = 0 then [] else loopIndices row (d - 1))

/-- The grid rows accessed when collision-checking or merging tile `t` at
depth `tileDepth` (empty when the shape has no occupied row, matching the
loops that never run). -/
def tileAccessIndices (t : Tile) (tileDepth : Nat) : List Nat :=
  if t.GetBottomGap ≥ TileSize then []
  else loopIndices (TileSize - 1 - t.GetBottomGap) (adjDepth t tileDepth)

theorem loopIndices_le :
    ∀ (row d i : Nat), i ∈ loopIndices row d → i ≤ d := by
  intro row
  induction row with
  | zero =>
    intro d i hi
    rw [loopIndices, List.mem_singleton] at hi
    omega
  | succ row ih =>
    intro d i hi
    rw [loopIndices, List.mem_cons] at hi
    rcases hi with rfl | hi
    · exact Nat.le_refl _
    · by_cases hd : d = 0
      · rw [if_pos hd] at hi
        cases hi
      · rw [if_neg hd] at hi
        have := ih (d - 1) i hi
        omega

theorem mergeLoop_getD_notMem (shape : List Nat) :
    ∀ (row : Nat) (g : List Nat) (d j : Nat), j ∉ loopIndices row d →
      (mergeLoop shape row g d).getD j 0 = g.getD j 0 := by
  intro row
  induction row with
  | zero =>
    intro g d j hj
    rw [loopIndices, List.mem_singleton] at hj
    rw [mergeLoop, List.getD_eq_getElem?_getD,
      List.getElem?_set_ne (fun h => hj h.symm), ← List.getD_eq_getElem?_getD]
  | succ row ih =>
    intro g d j hj
    rw [loopIndices, List.mem_cons] at hj
    push_neg at hj
    rw [mergeLoop]
    by_cases hd : d = 0
    · rw [if_pos hd]
      rw [List.getD_eq_getElem?_getD,
        List.getElem?_set_ne (fun h => hj.1 h.symm),
        ← List.getD_eq_getElem?_getD]
    · rw [if_neg hd]
      have hj2 : j ∉ loopIndices row (d - 1) := by
        have := hj.2
        rw [if_neg hd] at this
        exact this
      rw [ih _ (d - 1) j hj2, List.getD_eq_getElem?_getD,
        List.getElem?_set_ne (fun h => hj.1 h.symm),
        ← List.getD_eq_getElem?_getD]

/-- C8: for every tile and every depth at most `BoardHeight` (the phantom
row), the gap-adjusted index never underflows (the subtraction is applied
only when the depth exceeds the bottom gap), every grid row index visited
by the collision and merge loops lies in `[0, BoardHeight]`, and the merge
writes nothing outside those indices. -/
theorem claim_c8_access_in_bounds (t : Tile) (d : Nat)
    (hd : d ≤ BoardHeight) :
    (adjDepth t d ≤ d ∧ (d ≤ t.GetBottomGap → adjDepth t d = d)) ∧
    (∀ i ∈ tileAccessIndices t d, i ≤ BoardHeight) ∧
    (∀ (grid : List Nat) (j : Nat), j ∉ tileAccessIndices t d →
      (mergeTile grid t d).getD j 0 = grid.getD j 0) := by
  refine ⟨⟨?_, ?_⟩, ?_, ?_⟩
  · rw [adjDepth]
    split <;> omega
  · intro hle
    rw [adjDepth, if_neg (by omega)]
  · intro i hi
    rw [tileAccessIndices] at hi
    by_cases hgap : t.GetBottomGap ≥ TileSize
    · rw [if_pos hgap] at hi
      cases hi
    · rw [if_neg hgap] at hi
      have h1 := loopIndices_le _ _ _ hi
      have h2 : adjDepth t d ≤ d := by
        rw [adjDepth]
        split <;> omega
      omega
  · intro grid j hj
    rw [tileAccessIndices] at hj
    rw [mergeTile]
    by_cases hgap : t.GetBottomGap ≥ TileSize
    · rw [if_pos hgap]
    · rw [if_neg hgap]
      rw [if_neg hgap] at hj
      exact mergeLoop_getD_notMem _ _ _ _ _ hj

theorem claim_c8_access_in_bounds_witness :
    ((adjDepth tileS 20 ≤ 20 ∧
      (20 ≤ tileS.GetBottomGap → adjDepth tileS 20 = 20)) ∧
    (∀ i ∈ tileAccessIndices tileS 20, i ≤ BoardHeight) ∧
    (∀ (grid : List Nat) (j : Nat), j ∉ tileAccessIndices tileS 20 →
      (mergeTile grid tileS 20).getD j 0 = grid.getD j 0)) :=
  claim_c8_access_in_bounds tileS 20 (by decide)

end Gotris
